import Mathlib

/-!
Formal model of the flood-dashboard processing pipeline: the scripts
`process_gauge_data.py` and `compare_p90_roc.py`.  Pandas dataframes are
modelled as lists of structure rows, float columns as exact IEEE-style
values (`FVal`), and the pandas column operations as the corresponding
elementwise list operations.  File-existence is modelled with `Option`
on the input tables, and a raised Python exception with `Except.error`.
-/

/-- Decidable equality of run results (used to evaluate the model on the
concrete tables below). -/
instance {e a : Type} [DecidableEq e] [DecidableEq a] : DecidableEq (Except e a) :=
  fun x y =>
    match x, y with
    | .error u, .error v =>
        if h : u = v then isTrue (by rw [h]) else isFalse (fun hc => by cases hc; exact h rfl)
    | .ok u, .ok v =>
        if h : u = v then isTrue (by rw [h]) else isFalse (fun hc => by cases hc; exact h rfl)
    | .error _, .ok _ => isFalse (fun hc => by cases hc)
    | .ok _, .error _ => isFalse (fun hc => by cases hc)

namespace Flood

/-- IEEE-754 double values as produced by pandas/numpy column arithmetic,
abstracted to exact values: `nan` (which is also pandas' missing marker),
the two signed infinities, and finite values modelled as rationals (no
property considered here depends on rounding, and every concrete input used
below is exactly representable).  Signed zero is collapsed to `num 0`;
no modelled computation distinguishes `-0.0` from `0.0`. -/
inductive FVal where
  | nan : FVal
  | inf : Bool → FVal
  | num : ℚ → FVal
deriving DecidableEq, Repr

namespace FVal

/-- pandas `isna` on one cell. -/
def isna : FVal → Bool
  | nan => true
  | _ => false

/-- Whether the value is `+inf` or `-inf` (the set `[np.inf, -np.inf]`
used by `Series.replace`). -/
def isInf : FVal → Bool
  | inf _ => true
  | _ => false

/-- IEEE subtraction on float cells. -/
def sub : FVal → FVal → FVal
  | nan, _ => nan
  | _, nan => nan
  | inf a, inf b => if a = b then nan else inf a
  | inf a, num _ => inf a
  | num _, inf b => inf (!b)
  | num a, num b => num (a - b)

/-- IEEE division as numpy performs it on float columns: division of a
nonzero value by zero yields a signed infinity, `0/0` yields `nan`; no
exception is ever raised. -/
def div : FVal → FVal → FVal
  | nan, _ => nan
  | _, nan => nan
  | inf _, inf _ => nan
  | inf a, num b => if b < 0 then inf (!a) else inf a
  | num _, inf _ => num 0
  | num a, num b =>
      if b = 0 then (if a = 0 then nan else if 0 < a then inf true else inf false)
      else num (a / b)

/-- IEEE multiplication on float cells (`inf * 0 = nan`). -/
def mul : FVal → FVal → FVal
  | nan, _ => nan
  | _, nan => nan
  | inf a, inf b => inf (a = b)
  | inf a, num b => if b = 0 then nan else if 0 < b then inf a else inf (!a)
  | num a, inf b => if a = 0 then nan else if 0 < a then inf b else inf (!b)
  | num a, num b => num (a * b)

/-- IEEE `<=`: every comparison against `nan` is `false`, as in a pandas
boolean column. -/
def fle : FVal → FVal → Bool
  | nan, _ => false
  | _, nan => false
  | inf a, inf b => !a || b
  | inf a, num _ => !a
  | num _, inf b => b
  | num a, num b => decide (a ≤ b)

/-- IEEE `<`: every comparison against `nan` is `false`. -/
def flt : FVal → FVal → Bool
  | nan, _ => false
  | _, nan => false
  | inf a, inf b => !a && b
  | inf a, num _ => !a
  | num _, inf b => b
  | num a, num b => decide (a < b)

/-- IEEE `>=` (`x >= y` is `y <= x`; `nan` yields `false`). -/
def fge (x y : FVal) : Bool := fle y x

/-- IEEE `>` (`x > y` is `y < x`; `nan` yields `false`). -/
def fgt (x y : FVal) : Bool := flt y x

end FVal

/-- Civil date from a count of days since 1970-01-01 in the proleptic
Gregorian calendar (the standard `civil_from_days` algorithm used by
datetime libraries, hence by `pandas`).  Returns `(year, month, day)`. -/
def civilFromDays (z0 : ℤ) : ℤ × ℤ × ℤ :=
  let z := z0 + 719468
  let era := z.fdiv 146097
  let doe := z - era * 146097
  let yoe := (doe - doe.fdiv 1460 + doe.fdiv 36524 - doe.fdiv 146096).fdiv 365
  let y := yoe + era * 400
  let doy := doe - (365 * yoe + yoe.fdiv 4 - yoe.fdiv 100)
  let mp := (5 * doy + 2).fdiv 153
  let d := doy - (153 * mp + 2).fdiv 5 + 1
  let m := if mp < 10 then mp + 3 else mp - 9
  (if m ≤ 2 then y + 1 else y, m, d)

/-- Gregorian leap-year test. -/
def isLeap (y : ℤ) : Bool := (y % 4 = 0 && y % 100 ≠ 0) || y % 400 = 0

/-- Cumulative days in the months before month `m` of a non-leap year. -/
def daysBeforeMonth (m : ℤ) : ℤ :=
  if m ≤ 1 then 0 else if m = 2 then 31 else if m = 3 then 59 else if m = 4 then 90
  else if m = 5 then 120 else if m = 6 then 151 else if m = 7 then 181
  else if m = 8 then 212 else if m = 9 then 243 else if m = 10 then 273
  else if m = 11 then 304 else 334

/-- pandas `Series.dt.dayofyear` (1-based, leap-aware), for a timestamp
expressed as minutes since the Unix epoch in UTC. -/
def dayOfYear (tMinutes : ℤ) : ℤ :=
  let c := civilFromDays (tMinutes.fdiv 1440)
  daysBeforeMonth c.2.1 + (if 2 < c.2.1 ∧ isLeap c.1 then 1 else 0) + c.2.2

/-- Raw content of a `timestamp_utc` CSV cell: an empty/NaN cell (which
`pd.to_datetime` maps to `NaT` even without `errors="coerce"`), a malformed
non-empty string (on which `pd.to_datetime` without `errors="coerce"` raises
`ValueError`), or a parseable instant, modelled as minutes since the Unix
epoch.  The nominal 5-minute cadence of the feed plays no role in the code. -/
inductive RawTs where
  | missing : RawTs
  | malformed : String → RawTs
  | parsed : ℤ → RawTs
deriving DecidableEq, Repr

/-- Whether a raw timestamp cell is a malformed non-empty string. -/
def RawTs.isMalformed : RawTs → Bool
  | malformed _ => true
  | _ => false

/-- Strict `pd.to_datetime` (no `errors="coerce"`) on one cell, as called by
`compute_rate_of_change` in both scripts: raises on a malformed cell
(`Except.error`), maps an empty cell to `NaT` (`none`). -/
def parseTsStrict : RawTs → Except Unit (Option ℤ)
  | .missing => .ok none
  | .malformed _ => .error ()
  | .parsed t => .ok (some t)

/-- One row of `data/gauge_data.csv` as loaded by
`pd.read_csv(..., dtype={"site_no": str})`: a missing `site_no` cell is
`none`, the raw `flow_cfs` float cell is `nan` when missing (the feed's
`-9999` sentinel arrives as the ordinary number `-9999`). -/
structure RawReading where
  site : Option String
  ts : RawTs
  flow : FVal
deriving DecidableEq, Repr

/-- A reading after the strict timestamp parse (`NaT` is `none`). -/
structure ParsedReading where
  site : Option String
  ts : Option ℤ
  flow : FVal
deriving DecidableEq, Repr

/-- A reading enriched with the three rate-of-change columns
(`WINDOWS = {"1h": 12, "3h": 36, "6h": 72}`). -/
structure RocRow where
  site : Option String
  ts : Option ℤ
  flow : FVal
  pct1h : FVal
  pct3h : FVal
  pct6h : FVal
deriving DecidableEq, Repr

/-- Code-point lexicographic order on character lists: the order Python and
pandas use when comparing `site_no` strings. -/
def charListLt : List Char → List Char → Prop
  | [], [] => False
  | [], _ :: _ => True
  | _ :: _, [] => False
  | a :: s, b :: t => a.toNat < b.toNat ∨ (a.toNat = b.toNat ∧ charListLt s t)

instance charListLt.dec : DecidableRel charListLt
  | [], [] => isFalse id
  | [], _ :: _ => isTrue trivial
  | _ :: _, [] => isFalse id
  | _ :: s, _ :: t =>
      have : Decidable (charListLt s t) := charListLt.dec s t
      inferInstanceAs (Decidable (_ ∨ _))

/-- Code-point order on strings (Python's `<` on `str`). -/
def strLt (a b : String) : Prop := charListLt a.data b.data

instance : DecidableRel strLt := fun a b =>
  inferInstanceAs (Decidable (charListLt a.data b.data))

/-- Strict order on `site_no` sort keys with missing keys greatest: pandas
`sort_values` places NaN keys last (`na_position="last"`). -/
def siteLt : Option String → Option String → Prop
  | none, _ => False
  | some _, none => True
  | some a, some b => strLt a b

instance : DecidableRel siteLt
  | none, _ => isFalse id
  | some _, none => isTrue trivial
  | some a, some b => inferInstanceAs (Decidable (strLt a b))

/-- Timestamp sort keys with `NaT` last. -/
def tsOptLe : Option ℤ → Option ℤ → Prop
  | none, none => True
  | none, some _ => False
  | some _, none => True
  | some a, some b => a ≤ b

instance : DecidableRel tsOptLe
  | none, none => isTrue trivial
  | none, some _ => isFalse id
  | some _, none => isTrue trivial
  | some a, some b => inferInstanceAs (Decidable (a ≤ b))

/-- Row order of `df.sort_values(["site_no", "timestamp_utc"])`. pandas
multi-key sorting is `np.lexsort`, a stable sort, so the stable
`List.insertionSort` below is a faithful model. -/
def readingLe (a b : ParsedReading) : Prop :=
  siteLt a.site b.site ∨ (a.site = b.site ∧ tsOptLe a.ts b.ts)

instance : DecidableRel readingLe := fun a b => by
  unfold readingLe; infer_instance

/-- One cell of the percent-change formula
`(x - x.shift(window)) / x.shift(window) * 100`. -/
def pctCell (a b : FVal) : FVal := FVal.mul (FVal.div (FVal.sub a b) b) (FVal.num 100)

/-- pandas `Series.shift(w)`: `w` leading `NaN`s followed by the series,
truncated to the original length. -/
def shiftSeries (w : ℕ) (xs : List FVal) : List FVal :=
  (List.replicate w FVal.nan ++ xs).take xs.length

/-- The computed `pct_change_<window>` column for one site's flow sequence
`xs`, taken in the site's timestamp-sorted order: the elementwise
`(x - x.shift(w)) / x.shift(w) * 100`. -/
def pctChange (w : ℕ) (xs : List FVal) : List FVal :=
  List.zipWith pctCell xs (shiftSeries w xs)

/-- Value of a `pct_change` column at row `i` of the sorted table `l`:
`groupby("site_no")[...].transform(...)` computes the window formula within
the row's site group and aligns the result back to the row; rows whose group
key is NaN are excluded from every group and receive `NaN`.  Parametrised
over the row type of the two scripts. -/
def transformCell {β : Type} (siteOf : β → Option String) (flowOf : β → FVal)
    (w : ℕ) (l : List β) (i : ℕ) (s0 : Option String) : FVal :=
  match s0 with
  | none => FVal.nan
  | some s =>
      let grp := (l.filter (fun x => decide (siteOf x = some s))).map flowOf
      let pos := ((l.take i).filter (fun x => decide (siteOf x = some s))).length
      (pctChange w grp).getD pos FVal.nan

/-- Columnwise strict `pd.to_datetime` on the `timestamp_utc` column:
raises (`Except.error`) iff any cell is malformed. -/
def parseAll : List RawReading → Except Unit (List ParsedReading)
  | [] => .ok []
  | r :: l => do
      let t ← parseTsStrict r.ts
      let rest ← parseAll l
      pure (⟨r.site, t, r.flow⟩ :: rest)

/-- Add the three window columns to the sorted parsed table. -/
def enrichRoc (l : List ParsedReading) : List RocRow :=
  (List.range l.length).map fun i =>
    let r := l.getD i ⟨none, none, FVal.nan⟩
    ⟨r.site, r.ts, r.flow,
      transformCell ParsedReading.site ParsedReading.flow 12 l i r.site,
      transformCell ParsedReading.site ParsedReading.flow 36 l i r.site,
      transformCell ParsedReading.site ParsedReading.flow 72 l i r.site⟩

/-- `compute_rate_of_change` of `process_gauge_data.py`: strict timestamp
parse (which raises on any malformed cell), stable sort by
`(site_no, timestamp_utc)`, then the three per-site window columns.
`compare_p90_roc.py` contains a verbatim copy of this function (its
`pd.to_datetime` call lacks `utc=True`, which changes nothing modelled
here). -/
def computeRateOfChange (g : List RawReading) : Except Unit (List RocRow) := do
  let parsed ← parseAll g
  pure (enrichRoc (List.insertionSort readingLe parsed))

/-- A validated current reading, after `prepare_current_data` has dropped the
rows with a missing `day_of_year`, `flow_cfs` or `site_no`. -/
structure CurRow where
  site : String
  ts : ℤ
  doy : ℤ
  flow : FVal
  pct1h : FVal
  pct3h : FVal
  pct6h : FVal
deriving DecidableEq, Repr

/-- `prepare_current_data` (identical in both scripts): derive `day_of_year`
from the timestamp and drop the rows whose `day_of_year` (equivalently, whose
timestamp), `flow_cfs` or `site_no` is missing (`df.dropna(subset=...)`).
The `pd.to_datetime(..., errors="coerce")` call is the identity here because
the column was already parsed — strictly — by `compute_rate_of_change`,
which `main` runs first. -/
def prepareCurrentData (l : List RocRow) : List CurRow :=
  l.filterMap fun r =>
    match r.site, r.ts, r.flow.isna with
    | some s, some t, false => some ⟨s, t, dayOfYear t, r.flow, r.pct1h, r.pct3h, r.pct6h⟩
    | _, _, _ => none

/-- One row of `data/historical_p90.csv` (`site_no` again with `dtype=str`).
The `p90_flow_cfs` cell is modelled post-`pd.to_numeric(..., errors="coerce")`:
a numeric value, or `nan` for an empty or non-numeric cell. -/
structure HistRow where
  site : Option String
  doy : Option ℤ
  p90 : FVal
deriving DecidableEq, Repr

/-- One output row of `compare_to_historical` in `process_gauge_data.py`.
The `site_name` bookkeeping of the source is presentation-only and is not
modelled. -/
structure MergedRow where
  site : String
  ts : ℤ
  doy : ℤ
  flow : FVal
  pct1h : FVal
  pct3h : FVal
  pct6h : FVal
  p90 : FVal
  ratio : FVal
  highFlow : Bool
  percentile : FVal
deriving DecidableEq, Repr

/-- The `percentile` column of `process_gauge_data.compare_to_historical` as
a function of the `ratio` cell: `ratio * 100`, then `±inf` replaced by `nan`
(`pd.to_numeric(errors="coerce")` is the identity on the float column),
negative values clamped to `0`, values above `500` clamped to `500`, and
`nan` filled with `0`. -/
def percentileOf (ratio : FVal) : FVal :=
  let p0 := FVal.mul ratio (FVal.num 100)
  let p1 := if p0.isInf then FVal.nan else p0
  let p2 := if FVal.flt p1 (FVal.num 0) then FVal.num 0 else p1
  let p3 := if FVal.fgt p2 (FVal.num 500) then FVal.num 500 else p2
  if p3.isna then FVal.num 0 else p3

/-- Per-row content of `process_gauge_data.compare_to_historical` after the
left join, as a function of the current row and of the raw `p90_flow_cfs`
value contributed by the join (`nan` for an unmatched row).  Every column
statement of the source is elementwise, so the columnwise pandas code and
this per-row form coincide: `p90` is set to `nan` when non-positive or
missing, `ratio = flow / p90` (re-set to `nan` when `p90` is `nan`),
`high_flow = ratio >= 1.0`, and `percentile` as in `percentileOf`. -/
def procMergedRow (c : CurRow) (praw : FVal) : MergedRow :=
  let p90 := if FVal.fle praw (FVal.num 0) || praw.isna then FVal.nan else praw
  let ratio0 := FVal.div c.flow p90
  let ratio := if p90.isna then FVal.nan else ratio0
  ⟨c.site, c.ts, c.doy, c.flow, c.pct1h, c.pct3h, c.pct6h, p90,
    ratio, FVal.fge ratio (FVal.num 1), percentileOf ratio⟩

/-- `pd.merge(df_cur, df_hist, on=["site_no", "day_of_year"], how="left")`
followed by the ratio, high-flow and percentile computations of
`process_gauge_data.compare_to_historical`.  Left-join semantics: every
current row is kept, replicated once per matching baseline row (NaN join
keys never match anything), and receives `p90 = nan` when no baseline row
matches. -/
def compareToHistorical (cur : List CurRow) (hist : List HistRow) : List MergedRow :=
  cur.flatMap fun c =>
    let ms := hist.filter fun h => decide (h.site = some c.site) && decide (h.doy = some c.doy)
    match ms with
    | [] => [procMergedRow c FVal.nan]
    | _ => ms.map fun h => procMergedRow c h.p90

/-- `df.drop_duplicates(key, keep="last")`: a row survives iff no later row
carries the same key, so each key keeps its last occurrence, in the position
of that last occurrence. -/
def dropDupKeepLast {α κ : Type} (key : α → κ) [DecidableEq κ] : List α → List α
  | [] => []
  | a :: l =>
      if l.any (fun b => decide (key b = key a)) then dropDupKeepLast key l
      else a :: dropDupKeepLast key l

/-- Timestamp order on merged rows, for the final
`df.sort_values("timestamp_utc")`. -/
def tsRowLe (a b : MergedRow) : Prop := a.ts ≤ b.ts

instance : DecidableRel tsRowLe := fun a b => inferInstanceAs (Decidable (a.ts ≤ b.ts))

instance : IsTotal MergedRow tsRowLe := ⟨fun a b => Int.le_total a.ts b.ts⟩

instance : IsTrans MergedRow tsRowLe := ⟨fun _ _ _ h h' => Int.le_trans h h'⟩

/-- The Latest-Snapshot Reducer of `process_gauge_data.main`:
`df.sort_values("timestamp_utc").drop_duplicates("site_no", keep="last")`.
The single-key `sort_values` uses numpy's default `quicksort`, which is
**not stable** in general, so the relative order of rows with equal
timestamps in the real program is implementation-defined; the model uses a
stable `List.insertionSort` as one admissible sorted permutation.  Every
property proved about `latestSnapshot` below is insensitive to the order of
timestamp ties — uniqueness of the surviving row per site, membership in the
input, maximality of its timestamp, and the strictly-increasing two-reading
case — so none of it depends on the stability of the modelled sort.  The
order in which ties are broken is itself nowhere characterized or relied
upon. -/
def latestSnapshot (rows : List MergedRow) : List MergedRow :=
  dropDupKeepLast (fun r => r.site) (List.insertionSort tsRowLe rows)

/-- `process_gauge_data.main` as a function of the two input files
(`none` = the file does not exist).  Result `none`: main returned without
writing (a missing input file).  Result `some (Except.error ())`: an
uncaught exception (the strict timestamp parse) aborted the run before the
write.  Result `some (Except.ok t)`: the output file was overwritten with
table `t`. -/
def mainProcess (gauge : Option (List RawReading)) (hist : Option (List HistRow)) :
    Option (Except Unit (List MergedRow)) :=
  match gauge, hist with
  | some g, some h =>
      some (do
        let roc ← computeRateOfChange g
        pure (latestSnapshot (compareToHistorical (prepareCurrentData roc) h)))
  | _, _ => none

/-- One in-memory reading of `compare_p90_roc.py` after `load_current_data`
tagged it with its regional source (`df["region"] = region`). -/
structure RocSrcRow where
  site : Option String
  ts : RawTs
  flow : FVal
  region : String
deriving DecidableEq, Repr

/-- Tag every row of one regional file with its region. -/
def tagRegion (reg : String) (l : List RawReading) : List RocSrcRow :=
  l.map fun r => ⟨r.site, r.ts, r.flow, reg⟩

/-- `load_current_data` of `compare_p90_roc.py` over its two configured
sources `CURRENT_FILES = [data/north_va.csv, data/south_va.csv]`
(`none` = the file does not exist).  Returns the warnings printed for the
missing sources, in file order, and the concatenation of the present
tables.  A present file with zero data rows contributes an empty table and
no warning. -/
def loadCurrentData (north south : Option (List RawReading)) :
    List String × List RocSrcRow :=
  let n := match north with
    | some t => (([] : List String), tagRegion "north" t)
    | none => (["data/north_va.csv"], [])
  let s := match south with
    | some t => (([] : List String), tagRegion "south" t)
    | none => (["data/south_va.csv"], [])
  (n.1 ++ s.1, n.2 ++ s.2)

/-- A `compare_p90_roc.py` reading after the strict timestamp parse. -/
structure RocParsed where
  site : Option String
  ts : Option ℤ
  flow : FVal
  region : String
deriving DecidableEq, Repr

/-- A `compare_p90_roc.py` reading with the three window columns. -/
structure RocEnr where
  site : Option String
  ts : Option ℤ
  flow : FVal
  region : String
  pct1h : FVal
  pct3h : FVal
  pct6h : FVal
deriving DecidableEq, Repr

/-- A validated `compare_p90_roc.py` reading, after its
`prepare_current_data`. -/
structure RocCur where
  site : String
  ts : ℤ
  doy : ℤ
  flow : FVal
  region : String
  pct1h : FVal
  pct3h : FVal
  pct6h : FVal
deriving DecidableEq, Repr

/-- One output row of `compare_p90_roc.compare_to_historical` (the column
selection at its end keeps these fields; `site_name`, `lat` and `lon` are
presentation-only and not modelled). -/
structure RocOut where
  site : String
  ts : ℤ
  region : String
  flow : FVal
  p90 : FVal
  ratio : FVal
  highFlow : Bool
  pct1h : FVal
  pct3h : FVal
  pct6h : FVal
deriving DecidableEq, Repr

/-- Columnwise strict `pd.to_datetime` for the `compare_p90_roc.py` table. -/
def rocParseAll : List RocSrcRow → Except Unit (List RocParsed)
  | [] => .ok []
  | r :: l => do
      let t ← parseTsStrict r.ts
      let rest ← rocParseAll l
      pure (⟨r.site, t, r.flow, r.region⟩ :: rest)

/-- Row order of `df.sort_values(["site_no", "timestamp_utc"])` for the
`compare_p90_roc.py` table. -/
def rocReadingLe (a b : RocParsed) : Prop :=
  siteLt a.site b.site ∨ (a.site = b.site ∧ tsOptLe a.ts b.ts)

instance : DecidableRel rocReadingLe := fun a b => by
  unfold rocReadingLe; infer_instance

/-- `compute_rate_of_change` of `compare_p90_roc.py`: the same strict parse,
stable two-key sort and per-site window columns as in
`process_gauge_data.py`, over the region-tagged table. -/
def rocComputeRateOfChange (g : List RocSrcRow) : Except Unit (List RocEnr) := do
  let parsed ← rocParseAll g
  let l := List.insertionSort rocReadingLe parsed
  pure ((List.range l.length).map fun i =>
    let r := l.getD i ⟨none, none, FVal.nan, ""⟩
    ⟨r.site, r.ts, r.flow, r.region,
      transformCell RocParsed.site RocParsed.flow 12 l i r.site,
      transformCell RocParsed.site RocParsed.flow 36 l i r.site,
      transformCell RocParsed.site RocParsed.flow 72 l i r.site⟩)

/-- `prepare_current_data` of `compare_p90_roc.py` (same code as in
`process_gauge_data.py`). -/
def rocPrepareCurrentData (l : List RocEnr) : List RocCur :=
  l.filterMap fun r =>
    match r.site, r.ts, r.flow.isna with
    | some s, some t, false =>
        some ⟨s, t, dayOfYear t, r.flow, r.region, r.pct1h, r.pct3h, r.pct6h⟩
    | _, _, _ => none

/-- Per-row content of `compare_p90_roc.compare_to_historical` after the
left join: `ratio = flow / p90`, re-set to `nan` where `p90` is missing or
equal to zero, and `high_flow = ratio >= 1.0`.  Unlike the
`process_gauge_data.py` variant, the `p90_flow_cfs` column itself is left
untouched and a negative `p90` is not coerced to missing. -/
def rocMergedRow (c : RocCur) (praw : FVal) : RocOut :=
  let ratio0 := FVal.div c.flow praw
  let ratio := if praw.isna || decide (praw = FVal.num 0) then FVal.nan else ratio0
  ⟨c.site, c.ts, c.region, c.flow, praw, ratio, FVal.fge ratio (FVal.num 1),
    c.pct1h, c.pct3h, c.pct6h⟩

/-- `compare_p90_roc.compare_to_historical`: the same left join on
`(site_no, day_of_year)` as in `process_gauge_data.py`, followed by its
per-row ratio and high-flow computation. -/
def rocCompareToHistorical (cur : List RocCur) (hist : List HistRow) : List RocOut :=
  cur.flatMap fun c =>
    let ms := hist.filter fun h => decide (h.site = some c.site) && decide (h.doy = some c.doy)
    match ms with
    | [] => [rocMergedRow c FVal.nan]
    | _ => ms.map fun h => rocMergedRow c h.p90

/-- Observable outcome of one `compare_p90_roc.main` run: the missing-source
warnings printed by the loader, and the written output table (`none` when
the run returned early — no data, missing historical file — or died on an
uncaught exception; in every such case no output file is written). -/
structure RocRunResult where
  warnings : List String
  output : Option (List RocOut)
deriving DecidableEq, Repr

/-- `compare_p90_roc.main`: load the two regional sources, return early if
the concatenated table is empty, compute the rate of change (the strict
timestamp parse may raise), validate, return early if the historical file is
missing, else join and write `data/high_flow_with_roc.csv`. -/
def mainRoc (north south : Option (List RawReading)) (hist : Option (List HistRow)) :
    RocRunResult :=
  let ld := loadCurrentData north south
  if ld.2 = [] then ⟨ld.1, none⟩
  else
    match rocComputeRateOfChange ld.2 with
    | .error _ => ⟨ld.1, none⟩
    | .ok enr =>
        match hist with
        | none => ⟨ld.1, none⟩
        | some hh => ⟨ld.1, some (rocCompareToHistorical (rocPrepareCurrentData enr) hh)⟩

/-- Projection of the `pct_change_1h` column of an enriched table. -/
def pct1hColumn (l : List RocRow) : List FVal := l.map RocRow.pct1h

/-- A 13-sample single-site input table at the nominal 5-minute cadence whose
first flow value is `0` and whose later flows are `5`: enough history for the
1-hour window (12 samples) at the last reading, whose lookback lands on the
zero flow. -/
def c1input : List RawReading :=
  (List.range 13).map fun k => ⟨some "A", RawTs.parsed (5 * k), FVal.num (if k = 0 then 0 else 5)⟩

/-! ### Lemmas about the float semantics and the percent-change column -/

section
attribute [local semireducible] Rat.sub Rat.add Rat.mul Rat.inv

theorem pctCell_nan_right (a : FVal) : pctCell a FVal.nan = FVal.nan := by
  cases a <;> rfl

theorem pctCell_nan_left (b : FVal) : pctCell FVal.nan b = FVal.nan := by
  cases b <;> rfl

theorem pctCell_zero_zero : pctCell (FVal.num 0) (FVal.num 0) = FVal.nan := by decide

/-- Dividing a nonzero flow difference by a zero past flow yields a signed
infinity, which survives the multiplication by 100. -/
theorem pctCell_zero_den (a : ℚ) (ha : a ≠ 0) :
    pctCell (FVal.num a) (FVal.num 0) = FVal.inf (decide (0 < a)) := by
  simp only [pctCell, FVal.sub, FVal.div, sub_zero, if_pos rfl, if_neg ha]
  by_cases h : 0 < a
  · rw [if_pos h, decide_eq_true h]
    show FVal.mul (FVal.inf true) (FVal.num 100) = FVal.inf true
    simp only [FVal.mul]
    norm_num
  · rw [if_neg h, decide_eq_false h]
    show FVal.mul (FVal.inf false) (FVal.num 100) = FVal.inf false
    simp only [FVal.mul]
    norm_num

theorem pctCell_num_num (a b : ℚ) (hb : b ≠ 0) :
    pctCell (FVal.num a) (FVal.num b) = FVal.num ((a - b) / b * 100) := by
  simp only [pctCell, FVal.sub, FVal.div, FVal.mul, if_neg hb]

theorem length_shiftSeries (w : ℕ) (xs : List FVal) :
    (shiftSeries w xs).length = xs.length := by
  simp only [shiftSeries, List.length_take, List.length_append, List.length_replicate]
  omega

theorem length_pctChange (w : ℕ) (xs : List FVal) :
    (pctChange w xs).length = xs.length := by
  simp [pctChange, length_shiftSeries]

theorem getElem?_shiftSeries (w i : ℕ) (xs : List FVal) (h : i < xs.length) :
    (shiftSeries w xs)[i]? =
      some (if i < w then FVal.nan else xs.getD (i - w) FVal.nan) := by
  unfold shiftSeries
  rw [List.getElem?_take_of_lt h]
  by_cases hi : i < w
  · rw [List.getElem?_append_left (by simpa using hi), if_pos hi,
      List.getElem?_replicate_of_lt hi]
  · have hw : w ≤ i := not_lt.mp hi
    have hlt : i - w < xs.length := lt_of_le_of_lt (Nat.sub_le i w) h
    rw [List.getElem?_append_right (by simpa using hw), if_neg hi]
    simp [List.getD_eq_getElem?_getD, List.getElem?_eq_getElem hlt]

/-- Cell `i` of a `pct_change` column: the window formula applied to the
current flow and to the flow `w` positions earlier (`NaN` when there is no
such position). -/
theorem pctChange_getD (w i : ℕ) (xs : List FVal) (h : i < xs.length) :
    (pctChange w xs).getD i FVal.nan =
      pctCell (xs.getD i FVal.nan)
        (if i < w then FVal.nan else xs.getD (i - w) FVal.nan) := by
  rw [List.getD_eq_getElem?_getD, pctChange, List.getElem?_zipWith,
    List.getElem?_eq_getElem h, getElem?_shiftSeries w i xs h]
  simp [List.getD_eq_getElem?_getD, List.getElem?_eq_getElem h]

/-! ### Lemmas about the percentile clamp chain -/

theorem percentileOf_nan : percentileOf FVal.nan = FVal.num 0 := by decide

theorem percentileOf_inf (b : Bool) : percentileOf (FVal.inf b) = FVal.num 0 := by
  cases b <;> decide

theorem percentileOf_num (q : ℚ) :
    percentileOf (FVal.num q) = FVal.num (max 0 (min 500 (q * 100))) := by
  by_cases h1 : q * 100 < 0
  · rw [max_eq_left (le_trans (min_le_right 500 (q * 100)) h1.le)]
    simp [percentileOf, FVal.mul, FVal.isInf, FVal.flt, FVal.fgt, FVal.isna, h1]
  · by_cases h2 : 500 < q * 100
    · rw [min_eq_left (by linarith : (500 : ℚ) ≤ q * 100),
        max_eq_right (by norm_num : (0 : ℚ) ≤ 500)]
      simp [percentileOf, FVal.mul, FVal.isInf, FVal.flt, FVal.fgt, FVal.isna, h1, h2]
    · rw [min_eq_right (not_lt.mp h2), max_eq_right (not_lt.mp h1)]
      simp [percentileOf, FVal.mul, FVal.isInf, FVal.flt, FVal.fgt, FVal.isna, h1, h2]

end

/-! ### Lemmas about `drop_duplicates(keep="last")` and the stable sort -/

theorem dropDupKeepLast_sublist {α κ : Type} (key : α → κ) [DecidableEq κ] (l : List α) :
    List.Sublist (dropDupKeepLast key l) l := by
  induction l with
  | nil => exact List.Sublist.refl []
  | cons a t ih =>
      unfold dropDupKeepLast
      split
      · exact ih.trans (List.sublist_cons_self a t)
      · exact ih.cons₂ a

theorem dropDupKeepLast_pairwise {α κ : Type} (key : α → κ) [DecidableEq κ] (l : List α) :
    (dropDupKeepLast key l).Pairwise (fun a b => key a ≠ key b) := by
  induction l with
  | nil => exact List.Pairwise.nil
  | cons a t ih =>
      unfold dropDupKeepLast
      split
      · exact ih
      · rename_i hany
        refine List.Pairwise.cons (fun b hb heq => ?_) ih
        have hbt : b ∈ t := (dropDupKeepLast_sublist key t).subset hb
        exact hany (List.any_eq_true.mpr ⟨b, hbt, by simp [heq]⟩)

theorem getLast?_cons_ne_nil {α : Type} (a : α) {l : List α} (h : l ≠ []) :
    (a :: l).getLast? = l.getLast? := by
  cases l with
  | nil => exact absurd rfl h
  | cons b t => exact List.getLast?_cons_cons

/-- The surviving rows of `drop_duplicates(key, keep="last")` that carry key
`k` are exactly the last input row carrying key `k` (and nothing when no row
does). -/
theorem dropDupKeepLast_filter {α κ : Type} (key : α → κ) [DecidableEq κ] (l : List α)
    (k : κ) :
    (dropDupKeepLast key l).filter (fun a => decide (key a = k)) =
      ((l.filter (fun a => decide (key a = k))).getLast?).toList := by
  induction l with
  | nil => rfl
  | cons a t ih =>
      unfold dropDupKeepLast
      by_cases hk : key a = k
      · by_cases hany : (t.any fun b => decide (key b = key a)) = true
        · rw [if_pos hany, ih, List.filter_cons_of_pos (by simp [hk])]
          have hne : t.filter (fun x => decide (key x = k)) ≠ [] := by
            obtain ⟨b, hbt, hbk⟩ := List.any_eq_true.mp hany
            exact List.ne_nil_of_mem
              (List.mem_filter.mpr ⟨hbt, by simp [of_decide_eq_true hbk, hk]⟩)
          rw [getLast?_cons_ne_nil a hne]
        · rw [if_neg hany, List.filter_cons_of_pos (by simp [hk])]
          have hnil : t.filter (fun x => decide (key x = k)) = [] := by
            rw [List.filter_eq_nil_iff]
            intro b hbt hbk
            exact hany (List.any_eq_true.mpr
              ⟨b, hbt, by simp [of_decide_eq_true hbk, hk]⟩)
          rw [List.filter_cons_of_pos (by simp [hk]), ih, hnil]
          rfl
      · by_cases hany : (t.any fun b => decide (key b = key a)) = true
        · rw [if_pos hany, ih, List.filter_cons_of_neg (by simp [hk])]
        · rw [if_neg hany, List.filter_cons_of_neg (by simp [hk]),
            List.filter_cons_of_neg (by simp [hk]), ih]

/-- In a list sorted by `tsRowLe`, the last element's timestamp bounds every
element's timestamp. -/
theorem sorted_getLast?_ts (L : List MergedRow) :
    L.Pairwise tsRowLe → ∀ x, L.getLast? = some x → ∀ y ∈ L, y.ts ≤ x.ts := by
  induction L with
  | nil => intro _ x hx y hy; simp at hy
  | cons a t ih =>
      intro hp x hx y hy
      by_cases htn : t = []
      · subst htn
        have hax : a = x := by simpa using hx
        have hya : y = a := by simpa using hy
        subst hax; subst hya
        exact le_refl _
      · have htail : t.getLast? = some x := by
          rwa [getLast?_cons_ne_nil a htn] at hx
        have hxt : x ∈ t := List.mem_of_getLast?_eq_some htail
        rcases List.mem_cons.mp hy with hya | hyt
        · subst hya
          exact (List.pairwise_cons.mp hp).1 x hxt
        · exact ih (List.pairwise_cons.mp hp).2 x htail y hyt

/-- Characterization of the Latest-Snapshot Reducer, in the part that does
not depend on how the sort orders timestamp ties: for a site `s` with at
least one enriched row, the output contains exactly one row for `s`; it is
an input row for `s` and its timestamp is maximal among the site's rows. -/
theorem snapshot_filter_char (rows : List MergedRow) (s : String)
    (h : rows.filter (fun r => decide (r.site = s)) ≠ []) :
    ∃ r, (latestSnapshot rows).filter (fun a => decide (a.site = s)) = [r]
      ∧ r ∈ rows ∧ r.site = s
      ∧ (∀ y ∈ rows, y.site = s → y.ts ≤ r.ts) := by
  classical
  set σ := List.insertionSort tsRowLe rows with hσ
  have hperm : List.Perm σ rows := List.perm_insertionSort tsRowLe rows
  have hpermf : List.Perm (σ.filter (fun r => decide (r.site = s)))
      (rows.filter (fun r => decide (r.site = s))) := hperm.filter _
  have hLne : σ.filter (fun r => decide (r.site = s)) ≠ [] := by
    intro h0
    apply h
    have h1 := hpermf.symm
    rw [h0] at h1
    exact h1.eq_nil
  obtain ⟨r, hr⟩ : ∃ r, (σ.filter (fun r => decide (r.site = s))).getLast? = some r := by
    cases hgl : (σ.filter (fun r => decide (r.site = s))).getLast? with
    | none => exact absurd (List.getLast?_eq_none_iff.mp hgl) hLne
    | some r => exact ⟨r, rfl⟩
  have hmemL : r ∈ σ.filter (fun r => decide (r.site = s)) :=
    List.mem_of_getLast?_eq_some hr
  have hsite : r.site = s := of_decide_eq_true ((List.mem_filter.mp hmemL).2)
  have hmem : r ∈ rows := hperm.mem_iff.mp (List.mem_of_mem_filter hmemL)
  have hsorted : σ.Pairwise tsRowLe := List.sorted_insertionSort tsRowLe rows
  have hfsorted : (σ.filter (fun r => decide (r.site = s))).Pairwise tsRowLe :=
    hsorted.sublist (List.filter_sublist σ)
  have hmax : ∀ y ∈ rows, y.site = s → y.ts ≤ r.ts := by
    intro y hy hys
    have hyf : y ∈ σ.filter (fun r => decide (r.site = s)) := by
      apply hpermf.mem_iff.mpr
      exact List.mem_filter.mpr ⟨hy, by simp [hys]⟩
    exact sorted_getLast?_ts _ hfsorted r hr y hyf
  have hout : (latestSnapshot rows).filter (fun a => decide (a.site = s)) = [r] := by
    have := dropDupKeepLast_filter (fun r : MergedRow => r.site) σ s
    rw [latestSnapshot, ← hσ, this, hr]
    rfl
  exact ⟨r, hout, hmem, hsite, hmax⟩

/-- Special case: a site with exactly two enriched rows at strictly
increasing timestamps keeps the later row. -/
theorem snapshot_two (rows : List MergedRow) (s : String) (r1 r2 : MergedRow)
    (hf : rows.filter (fun r => decide (r.site = s)) = [r1, r2])
    (hlt : r1.ts < r2.ts) :
    (latestSnapshot rows).filter (fun a => decide (a.site = s)) = [r2] := by
  have hne : rows.filter (fun r => decide (r.site = s)) ≠ [] := by
    rw [hf]; simp
  obtain ⟨r, hout, hmem, hsite, hmax⟩ := snapshot_filter_char rows s hne
  have hr2f : r2 ∈ rows.filter (fun r => decide (r.site = s)) := by
    rw [hf]; simp
  have hr2mem : r2 ∈ rows := List.mem_of_mem_filter hr2f
  have hr2site : r2.site = s := of_decide_eq_true ((List.mem_filter.mp hr2f).2)
  have hr2le : r2.ts ≤ r.ts := hmax r2 hr2mem hr2site
  have hrf : r ∈ rows.filter (fun x => decide (x.site = s)) :=
    List.mem_filter.mpr ⟨hmem, by simp [hsite]⟩
  rw [hf] at hrf
  rcases List.mem_cons.mp hrf with hr1 | hr2'
  · subst hr1
    exact absurd hr2le (not_le.mpr hlt)
  · have : r = r2 := by simpa using hr2'
    subst this
    exact hout

/-! ### Lemmas about the baseline join -/

/-- Every output row of the join stage is built by `procMergedRow` from some
current row and some raw joined `p90` value. -/
theorem mem_compareToHistorical {cur : List CurRow} {hist : List HistRow} {r : MergedRow}
    (h : r ∈ compareToHistorical cur hist) : ∃ c praw, r = procMergedRow c praw := by
  simp only [compareToHistorical, List.mem_flatMap] at h
  obtain ⟨c, _, hr⟩ := h
  revert hr
  cases hms : hist.filter fun h => decide (h.site = some c.site) && decide (h.doy = some c.doy) with
  | nil =>
      intro hr
      exact ⟨c, FVal.nan, by simpa using hr⟩
  | cons h1 t1 =>
      intro hr
      simp only [List.mem_map] at hr
      obtain ⟨hh, _, hr⟩ := hr
      exact ⟨c, hh.p90, hr.symm⟩

theorem procMergedRow_percentile (c : CurRow) (praw : FVal) :
    (procMergedRow c praw).percentile = percentileOf ((procMergedRow c praw).ratio) := rfl

theorem procMergedRow_highFlow (c : CurRow) (praw : FVal) :
    (procMergedRow c praw).highFlow = FVal.fge ((procMergedRow c praw).ratio) (FVal.num 1) :=
  rfl

theorem rocMergedRow_highFlow (c : RocCur) (praw : FVal) :
    (rocMergedRow c praw).highFlow = FVal.fge ((rocMergedRow c praw).ratio) (FVal.num 1) :=
  rfl

/-! ### Lemmas about the strict parse and the validation drop -/

theorem ebind_ok {e a b : Type} (x : a) (f : a → Except e b) :
    ((Except.ok x : Except e a) >>= f) = f x := rfl

theorem ebind_error {e a b : Type} (u : e) (f : a → Except e b) :
    ((Except.error u : Except e a) >>= f) = Except.error u := rfl

theorem epure_ok {e a : Type} (x : a) : (pure x : Except e a) = Except.ok x := rfl

theorem parseAll_ok_of_wellformed (g : List RawReading)
    (h : ∀ r ∈ g, r.ts.isMalformed = false) : ∃ l, parseAll g = .ok l := by
  induction g with
  | nil => exact ⟨[], rfl⟩
  | cons r t ih =>
      obtain ⟨l, hl⟩ := ih fun x hx => h x (List.mem_cons_of_mem r hx)
      cases hts : r.ts with
      | malformed m =>
          have := h r (List.mem_cons_self r t)
          rw [hts] at this
          simp [RawTs.isMalformed] at this
      | missing =>
          refine ⟨⟨r.site, none, r.flow⟩ :: l, ?_⟩
          simp only [parseAll, hts, parseTsStrict, hl, ebind_ok, epure_ok]
      | parsed t0 =>
          refine ⟨⟨r.site, some t0, r.flow⟩ :: l, ?_⟩
          simp only [parseAll, hts, parseTsStrict, hl, ebind_ok, epure_ok]

theorem rocParseAll_ok_of_wellformed (g : List RocSrcRow)
    (h : ∀ r ∈ g, r.ts.isMalformed = false) : ∃ l, rocParseAll g = .ok l := by
  induction g with
  | nil => exact ⟨[], rfl⟩
  | cons r t ih =>
      obtain ⟨l, hl⟩ := ih fun x hx => h x (List.mem_cons_of_mem r hx)
      cases hts : r.ts with
      | malformed m =>
          have := h r (List.mem_cons_self r t)
          rw [hts] at this
          simp [RawTs.isMalformed] at this
      | missing =>
          refine ⟨⟨r.site, none, r.flow, r.region⟩ :: l, ?_⟩
          simp only [rocParseAll, hts, parseTsStrict, hl, ebind_ok, epure_ok]
      | parsed t0 =>
          refine ⟨⟨r.site, some t0, r.flow, r.region⟩ :: l, ?_⟩
          simp only [rocParseAll, hts, parseTsStrict, hl, ebind_ok, epure_ok]

theorem parseAll_invalid (g : List RawReading) (l : List ParsedReading)
    (hok : parseAll g = .ok l)
    (hinv : ∀ r ∈ g, r.site = none ∨ r.ts = RawTs.missing ∨ r.flow = FVal.nan) :
    ∀ x ∈ l, x.site = none ∨ x.ts = none ∨ x.flow = FVal.nan := by
  induction g generalizing l with
  | nil =>
      simp only [parseAll] at hok
      cases hok
      intro x hx
      simp at hx
  | cons r t ih =>
      cases hts : r.ts with
      | malformed m =>
          rw [parseAll, hts] at hok
          simp only [parseTsStrict, ebind_error] at hok
          exact Except.noConfusion hok
      | missing =>
          rw [parseAll, hts] at hok
          cases hrest : parseAll t with
          | error e =>
              simp only [parseTsStrict, hrest, ebind_ok, ebind_error] at hok
              exact Except.noConfusion hok
          | ok lrest =>
              simp only [parseTsStrict, hrest, ebind_ok, epure_ok, Except.ok.injEq] at hok
              subst hok
              intro x hx
              rcases List.mem_cons.mp hx with hx0 | hxr
              · subst hx0
                right; left; rfl
              · exact ih lrest hrest (fun y hy => hinv y (List.mem_cons_of_mem r hy)) x hxr
      | parsed t0 =>
          rw [parseAll, hts] at hok
          cases hrest : parseAll t with
          | error e =>
              simp only [parseTsStrict, hrest, ebind_ok, ebind_error] at hok
              exact Except.noConfusion hok
          | ok lrest =>
              simp only [parseTsStrict, hrest, ebind_ok, epure_ok, Except.ok.injEq] at hok
              subst hok
              intro x hx
              rcases List.mem_cons.mp hx with hx0 | hxr
              · subst hx0
                rcases hinv r (List.mem_cons_self r t) with h1 | h1 | h1
                · left; exact h1
                · rw [hts] at h1; cases h1
                · right; right; exact h1
              · exact ih lrest hrest (fun y hy => hinv y (List.mem_cons_of_mem r hy)) x hxr

/-- Each row of the enriched table inherits `site_no`, `timestamp_utc` and
`flow_cfs` from a row of the sorted parsed table. -/
theorem mem_enrichRoc {l : List ParsedReading} {x : RocRow} (h : x ∈ enrichRoc l) :
    ∃ p ∈ l, x.site = p.site ∧ x.ts = p.ts ∧ x.flow = p.flow := by
  simp only [enrichRoc, List.mem_map, List.mem_range] at h
  obtain ⟨i, hi, hx⟩ := h
  have hget : l.getD i ⟨none, none, FVal.nan⟩ = l.get ⟨i, hi⟩ := by
    simp [List.getD_eq_getElem?_getD, List.getElem?_eq_getElem hi]
  refine ⟨l.getD i ⟨none, none, FVal.nan⟩, ?_, ?_, ?_, ?_⟩
  · rw [hget]
    exact List.get_mem l i hi
  · rw [← hx]
  · rw [← hx]
  · rw [← hx]

/-- A table whose rows all fail validation is emptied by
`prepare_current_data`. -/
theorem prepare_nil_of_invalid (m : List RocRow)
    (h : ∀ x ∈ m, x.site = none ∨ x.ts = none ∨ x.flow = FVal.nan) :
    prepareCurrentData m = [] := by
  rw [prepareCurrentData, List.filterMap_eq_nil_iff]
  intro r hr
  rcases h r hr with h1 | h1 | h1 <;> split <;> simp_all [FVal.isna]

/-! ### Projection equations for the two per-row join computations -/

theorem procMergedRow_p90 (c : CurRow) (praw : FVal) :
    (procMergedRow c praw).p90 =
      if FVal.fle praw (FVal.num 0) || praw.isna then FVal.nan else praw := rfl

theorem procMergedRow_ratio (c : CurRow) (praw : FVal) :
    (procMergedRow c praw).ratio =
      if ((procMergedRow c praw).p90).isna then FVal.nan
      else FVal.div c.flow ((procMergedRow c praw).p90) := rfl

theorem rocMergedRow_p90 (c : RocCur) (praw : FVal) :
    (rocMergedRow c praw).p90 = praw := rfl

theorem rocMergedRow_ratio (c : RocCur) (praw : FVal) :
    (rocMergedRow c praw).ratio =
      if praw.isna || decide (praw = FVal.num 0) then FVal.nan
      else FVal.div c.flow praw := rfl

/-- The printed missing-source warnings of a `compare_p90_roc.main` run are
exactly the loader's warnings, on every control path. -/
theorem mainRoc_warnings (north south : Option (List RawReading))
    (hist : Option (List HistRow)) :
    (mainRoc north south hist).warnings = (loadCurrentData north south).1 := by
  unfold mainRoc
  by_cases hld : (loadCurrentData north south).2 = []
  · simp [hld]
  · simp only [hld, if_false]
    cases hroc : rocComputeRateOfChange (loadCurrentData north south).2 with
    | error e => rfl
    | ok enr => cases hist with
      | none => rfl
      | some hh => rfl

/-! ## Claim theorems -/

section
attribute [local semireducible] Rat.sub Rat.add Rat.mul Rat.inv

/-- C1 (counterexample): the claim states that `pct_change` is missing
whenever the flow `window` samples earlier is zero, and that the computation
"never propagates NaN or Infinity into the output column".  Running
`compute_rate_of_change` on the 13-sample site `c1input`, whose first flow is
`0` and whose later flows are `5`, produces `+inf` (not a missing value) in
`pct_change_1h` at the 13th reading, whose 12-sample lookback lands on the
zero flow: pandas float division by zero yields `inf`, which stays in the
column. -/
theorem c1_counterexample :
    (computeRateOfChange c1input).map pct1hColumn =
      Except.ok (List.replicate 12 FVal.nan ++ [FVal.inf true]) := by decide

/-- C1 (amended): characterization of one `pct_change` cell over a site's
timestamp-sorted flow sequence `xs`.  The cell is missing when there is
insufficient history (`i < w`), when either the current flow or the lookback
flow is missing, or when both are zero; when only the lookback flow is zero
the cell is a signed infinity (sign of the current flow), which does enter
the output column; otherwise it is the real number
`(flow[i] - flow[i-w]) / flow[i-w] * 100`.  No division error is possible:
`pctChange` is a total function. -/
theorem c1_pct_change_characterization (xs : List FVal) (w i : ℕ) (hi : i < xs.length) :
    ((i < w ∨ xs.getD (i - w) FVal.nan = FVal.nan ∨ xs.getD i FVal.nan = FVal.nan ∨
        (xs.getD (i - w) FVal.nan = FVal.num 0 ∧ xs.getD i FVal.nan = FVal.num 0)) →
      (pctChange w xs).getD i FVal.nan = FVal.nan) ∧
    (∀ qa : ℚ, w ≤ i → xs.getD i FVal.nan = FVal.num qa → qa ≠ 0 →
      xs.getD (i - w) FVal.nan = FVal.num 0 →
      (pctChange w xs).getD i FVal.nan = FVal.inf (decide (0 < qa))) ∧
    (∀ qa qb : ℚ, w ≤ i → xs.getD i FVal.nan = FVal.num qa →
      xs.getD (i - w) FVal.nan = FVal.num qb → qb ≠ 0 →
      (pctChange w xs).getD i FVal.nan = FVal.num ((qa - qb) / qb * 100)) := by
  have hc := pctChange_getD w i xs hi
  refine ⟨?_, ?_, ?_⟩
  · rintro (hw | hb | ha | ⟨hb, ha⟩)
    · rw [hc, if_pos hw, pctCell_nan_right]
    · by_cases hw : i < w
      · rw [hc, if_pos hw, pctCell_nan_right]
      · rw [hc, if_neg hw, hb, pctCell_nan_right]
    · by_cases hw : i < w
      · rw [hc, if_pos hw, pctCell_nan_right]
      · rw [hc, if_neg hw, ha, pctCell_nan_left]
    · by_cases hw : i < w
      · rw [hc, if_pos hw, pctCell_nan_right]
      · rw [hc, if_neg hw, ha, hb, pctCell_zero_zero]
  · intro qa hw ha hqa hb
    rw [hc, if_neg (not_lt.mpr hw), ha, hb, pctCell_zero_den qa hqa]
  · intro qa qb hw ha hb hqb
    rw [hc, if_neg (not_lt.mpr hw), ha, hb, pctCell_num_num qa qb hqb]

/-- C1 (witness): the characterization applied to the two-sample sequence
`[0, 5]` with window `1`: the lookback flow is zero, so the computed cell is
`+inf`. -/
theorem c1_pct_change_characterization_witness :
    (1 < ([FVal.num 0, FVal.num 5] : List FVal).length ∧ (5 : ℚ) ≠ 0) ∧
      (pctChange 1 [FVal.num 0, FVal.num 5]).getD 1 FVal.nan =
        FVal.inf (decide ((0 : ℚ) < 5)) :=
  ⟨⟨by decide, by norm_num⟩,
    (c1_pct_change_characterization [FVal.num 0, FVal.num 5] 1 1 (by decide)).2.1 5
      (by decide) rfl (by norm_num) rfl⟩

/-- C2 (counterexample): the claim states that a raw flow of `-9999` is
converted to a missing marker before any arithmetic and that the literal
`-9999` never appears in a computed ratio.  Neither script performs any such
conversion: running the whole `process_gauge_data` pipeline on a single
reading with flow `-9999` and a matching baseline `p90_flow_cfs = 1`
produces an output row whose `ratio` is literally `-9999`. -/
theorem c2_counterexample :
    mainProcess (some [⟨some "A", RawTs.parsed 0, FVal.num (-9999)⟩])
        (some [⟨some "A", some 1, FVal.num 1⟩]) =
      some (Except.ok [⟨"A", 0, 1, FVal.num (-9999), FVal.nan, FVal.nan, FVal.nan,
        FVal.num 1, FVal.num (-9999), false, FVal.num 0⟩]) := by decide

/-- C2 (amended): no sentinel conversion exists; a `-9999` flow is processed
as the ordinary number `-9999`.  Against a valid positive baseline `p` the
computed ratio is the non-missing number `-9999 / p` (so the sentinel leaks
into the ratio column, e.g. as the literal `-9999` when `p = 1`); such a row
still never raises `high_flow` and its percentile clamps to `0`.  A `-9999`
reading is not selected as a site's Snapshot when a later reading exists,
but only because the later timestamp wins the latest-row reduction — not
because the sentinel is treated as missing. -/
theorem c2_sentinel_amended :
    (∀ (c : CurRow) (p : ℚ), 0 < p → c.flow = FVal.num (-9999) →
      (procMergedRow c (FVal.num p)).ratio = FVal.num (-9999 / p) ∧
      (procMergedRow c (FVal.num p)).highFlow = false ∧
      (procMergedRow c (FVal.num p)).percentile = FVal.num 0) ∧
    (∀ (rows : List MergedRow) (s : String) (r1 r2 : MergedRow),
      rows.filter (fun r => decide (r.site = s)) = [r1, r2] → r1.ts < r2.ts →
      r1.flow = FVal.num (-9999) →
      (latestSnapshot rows).filter (fun a => decide (a.site = s)) = [r2]) := by
  constructor
  · intro c p hp hflow
    have hcond : (FVal.fle (FVal.num p) (FVal.num 0) || (FVal.num p).isna) = false := by
      show (decide (p ≤ 0) || false) = false
      rw [decide_eq_false (not_le.mpr hp), Bool.or_false]
    have h90 : (procMergedRow c (FVal.num p)).p90 = FVal.num p := by
      rw [procMergedRow_p90, hcond]
      rfl
    have hratio : (procMergedRow c (FVal.num p)).ratio = FVal.num (-9999 / p) := by
      rw [procMergedRow_ratio, h90, hflow]
      show (if false = true then FVal.nan else FVal.div (FVal.num (-9999)) (FVal.num p))
        = FVal.num (-9999 / p)
      rw [if_neg (by simp)]
      show (if p = 0 then (if (-9999 : ℚ) = 0 then FVal.nan
          else if 0 < (-9999 : ℚ) then FVal.inf true else FVal.inf false)
        else FVal.num (-9999 / p)) = FVal.num (-9999 / p)
      rw [if_neg (ne_of_gt hp)]
    have hneg : (-9999 : ℚ) / p < 0 := div_neg_of_neg_of_pos (by norm_num) hp
    refine ⟨hratio, ?_, ?_⟩
    · rw [procMergedRow_highFlow, hratio]
      show (decide ((1 : ℚ) ≤ -9999 / p)) = false
      rw [decide_eq_false (not_le.mpr (lt_trans hneg one_pos))]
    · rw [procMergedRow_percentile, hratio, percentileOf_num]
      have h100 : (-9999 : ℚ) / p * 100 < 0 := mul_neg_of_neg_of_pos hneg (by norm_num)
      rw [min_eq_right (by linarith : (-9999 : ℚ) / p * 100 ≤ 500),
        max_eq_left (le_of_lt h100)]
  · intro rows s r1 r2 hf hlt _
    exact snapshot_two rows s r1 r2 hf hlt

/-- C2 (witness): the amended claim applied to a concrete validated row with
flow `-9999` and baseline `1`, and to a concrete two-row site whose earlier
row carries the sentinel. -/
theorem c2_sentinel_amended_witness :
    ((procMergedRow ⟨"A", 0, 1, FVal.num (-9999), FVal.nan, FVal.nan, FVal.nan⟩
        (FVal.num 1)).ratio = FVal.num (-9999 / 1) ∧
      (procMergedRow ⟨"A", 0, 1, FVal.num (-9999), FVal.nan, FVal.nan, FVal.nan⟩
        (FVal.num 1)).highFlow = false ∧
      (procMergedRow ⟨"A", 0, 1, FVal.num (-9999), FVal.nan, FVal.nan, FVal.nan⟩
        (FVal.num 1)).percentile = FVal.num 0) ∧
    (latestSnapshot
        [⟨"A", 0, 1, FVal.num (-9999), FVal.nan, FVal.nan, FVal.nan, FVal.num 1,
          FVal.num (-9999), false, FVal.num 0⟩,
         ⟨"A", 5, 1, FVal.num 7, FVal.nan, FVal.nan, FVal.nan, FVal.num 1,
          FVal.num 7, true, FVal.num 500⟩]).filter
      (fun a => decide (a.site = "A")) =
      [⟨"A", 5, 1, FVal.num 7, FVal.nan, FVal.nan, FVal.nan, FVal.num 1,
        FVal.num 7, true, FVal.num 500⟩] :=
  ⟨c2_sentinel_amended.1 ⟨"A", 0, 1, FVal.num (-9999), FVal.nan, FVal.nan, FVal.nan⟩
      1 (by norm_num) rfl,
    c2_sentinel_amended.2
      [⟨"A", 0, 1, FVal.num (-9999), FVal.nan, FVal.nan, FVal.nan, FVal.num 1,
        FVal.num (-9999), false, FVal.num 0⟩,
       ⟨"A", 5, 1, FVal.num 7, FVal.nan, FVal.nan, FVal.nan, FVal.num 1,
        FVal.num 7, true, FVal.num 500⟩]
      "A"
      ⟨"A", 0, 1, FVal.num (-9999), FVal.nan, FVal.nan, FVal.nan, FVal.num 1,
        FVal.num (-9999), false, FVal.num 0⟩
      ⟨"A", 5, 1, FVal.num 7, FVal.nan, FVal.nan, FVal.nan, FVal.num 1,
        FVal.num 7, true, FVal.num 500⟩
      (by decide) (by decide) rfl⟩

/-- C3 (counterexample): the claim states (for both scripts) that a
non-positive baseline `p90_flow` is coerced to missing and yields a missing
ratio.  In `compare_p90_roc.compare_to_historical` only a missing or zero
`p90` is handled: joining a current row of flow `10` against a baseline row
with `p90_flow_cfs = -5` leaves the stored `p90` at `-5` and produces the
non-missing negative ratio `-2`. -/
theorem c3_counterexample :
    rocCompareToHistorical
        [⟨"A", 0, 1, FVal.num 10, "north", FVal.nan, FVal.nan, FVal.nan⟩]
        [⟨some "A", some 1, FVal.num (-5)⟩] =
      [⟨"A", 0, "north", FVal.num 10, FVal.num (-5), FVal.num (-2), false,
        FVal.nan, FVal.nan, FVal.nan⟩] := by decide

/-- C3 (amended): in `process_gauge_data.compare_to_historical` the claim
holds as stated: a non-positive-or-missing raw `p90` is coerced to missing,
the ratio is missing and `high_flow` is false.  In
`compare_p90_roc.compare_to_historical` the stored `p90` is never modified
and only a missing-or-zero `p90` forces a missing ratio (a negative `p90`
yields a non-missing ratio).  In both scripts a row with a missing ratio is
never reported as high-flow. -/
theorem c3_division_safety_amended :
    (∀ (c : CurRow) (p : FVal), (FVal.fle p (FVal.num 0) || p.isna) = true →
      (procMergedRow c p).p90 = FVal.nan ∧ (procMergedRow c p).ratio = FVal.nan ∧
      (procMergedRow c p).highFlow = false) ∧
    (∀ (c : RocCur) (p : FVal), (p.isna || decide (p = FVal.num 0)) = true →
      (rocMergedRow c p).ratio = FVal.nan ∧ (rocMergedRow c p).highFlow = false ∧
      (rocMergedRow c p).p90 = p) ∧
    (∀ (c : CurRow) (p : FVal), (procMergedRow c p).ratio = FVal.nan →
      (procMergedRow c p).highFlow = false) ∧
    (∀ (c : RocCur) (p : FVal), (rocMergedRow c p).ratio = FVal.nan →
      (rocMergedRow c p).highFlow = false) := by
  refine ⟨?_, ?_, ?_, ?_⟩
  · intro c p hcond
    have h90 : (procMergedRow c p).p90 = FVal.nan := by
      rw [procMergedRow_p90, if_pos hcond]
    have hr : (procMergedRow c p).ratio = FVal.nan := by
      rw [procMergedRow_ratio, h90]
      rfl
    exact ⟨h90, hr, by rw [procMergedRow_highFlow, hr]; rfl⟩
  · intro c p hcond
    have hr : (rocMergedRow c p).ratio = FVal.nan := by
      rw [rocMergedRow_ratio, if_pos hcond]
    exact ⟨hr, by rw [rocMergedRow_highFlow, hr]; rfl, rfl⟩
  · intro c p hr
    rw [procMergedRow_highFlow, hr]
    rfl
  · intro c p hr
    rw [rocMergedRow_highFlow, hr]
    rfl

/-- C3 (witness): the amended claim applied to a missing `p90` in the
`process_gauge_data` join and to a zero `p90` in the `compare_p90_roc`
join. -/
theorem c3_division_safety_amended_witness :
    ((FVal.fle FVal.nan (FVal.num 0) || FVal.nan.isna) = true ∧
      (procMergedRow ⟨"A", 0, 1, FVal.num 3, FVal.nan, FVal.nan, FVal.nan⟩
          FVal.nan).p90 = FVal.nan ∧
      (procMergedRow ⟨"A", 0, 1, FVal.num 3, FVal.nan, FVal.nan, FVal.nan⟩
          FVal.nan).ratio = FVal.nan ∧
      (procMergedRow ⟨"A", 0, 1, FVal.num 3, FVal.nan, FVal.nan, FVal.nan⟩
          FVal.nan).highFlow = false) ∧
    ((FVal.num 0).isna || decide (FVal.num 0 = FVal.num 0)) = true ∧
      (rocMergedRow ⟨"A", 0, 1, FVal.num 3, "north", FVal.nan, FVal.nan, FVal.nan⟩
          (FVal.num 0)).ratio = FVal.nan ∧
      (rocMergedRow ⟨"A", 0, 1, FVal.num 3, "north", FVal.nan, FVal.nan, FVal.nan⟩
          (FVal.num 0)).highFlow = false :=
  ⟨⟨by decide,
    c3_division_safety_amended.1
      ⟨"A", 0, 1, FVal.num 3, FVal.nan, FVal.nan, FVal.nan⟩ FVal.nan (by decide)⟩,
    by decide,
    (c3_division_safety_amended.2.1
      ⟨"A", 0, 1, FVal.num 3, "north", FVal.nan, FVal.nan, FVal.nan⟩ (FVal.num 0)
      (by decide)).1,
    (c3_division_safety_amended.2.1
      ⟨"A", 0, 1, FVal.num 3, "north", FVal.nan, FVal.nan, FVal.nan⟩ (FVal.num 0)
      (by decide)).2.1⟩

/-- C4 (confirmed): every output row of
`process_gauge_data.compare_to_historical` has a numeric percentile within
`[0, 500]`; it is `0` whenever the ratio is missing (or infinite), and for a
numeric ratio `x` it is exactly `x * 100` clamped below at `0` and above at
`500` (the `±inf → nan` replacement, the two clamps and the `fillna(0)` of
the source, in that order). -/
theorem c4_percentile_clamp (cur : List CurRow) (hist : List HistRow) (r : MergedRow)
    (h : r ∈ compareToHistorical cur hist) :
    (∃ q : ℚ, r.percentile = FVal.num q ∧ 0 ≤ q ∧ q ≤ 500) ∧
    (r.ratio = FVal.nan → r.percentile = FVal.num 0) ∧
    (∀ b : Bool, r.ratio = FVal.inf b → r.percentile = FVal.num 0) ∧
    (∀ x : ℚ, r.ratio = FVal.num x →
      r.percentile = FVal.num (max 0 (min 500 (x * 100)))) := by
  obtain ⟨c, praw, hr⟩ := mem_compareToHistorical h
  subst hr
  have hp := procMergedRow_percentile c praw
  refine ⟨?_, ?_, ?_, ?_⟩
  · rw [hp]
    cases hrat : (procMergedRow c praw).ratio with
    | nan =>
        rw [percentileOf_nan]
        exact ⟨0, rfl, le_refl 0, by norm_num⟩
    | inf b =>
        rw [percentileOf_inf]
        exact ⟨0, rfl, le_refl 0, by norm_num⟩
    | num x =>
        rw [percentileOf_num]
        exact ⟨max 0 (min 500 (x * 100)), rfl, le_max_left 0 _,
          max_le (by norm_num) (min_le_left _ _)⟩
  · intro hn
    rw [hp, hn, percentileOf_nan]
  · intro b hb
    rw [hp, hb, percentileOf_inf]
  · intro x hx
    rw [hp, hx, percentileOf_num]

/-- C4 (witness): the clamp characterization applied to the single output
row of a join with no matching baseline entry: its ratio is missing and its
percentile is `0`. -/
theorem c4_percentile_clamp_witness :
    (⟨"A", 0, 1, FVal.num 3, FVal.nan, FVal.nan, FVal.nan, FVal.nan, FVal.nan,
        false, FVal.num 0⟩ : MergedRow) ∈
      compareToHistorical [⟨"A", 0, 1, FVal.num 3, FVal.nan, FVal.nan, FVal.nan⟩] [] ∧
    (⟨"A", 0, 1, FVal.num 3, FVal.nan, FVal.nan, FVal.nan, FVal.nan, FVal.nan,
        false, FVal.num 0⟩ : MergedRow).percentile = FVal.num 0 :=
  ⟨by decide,
    (c4_percentile_clamp [⟨"A", 0, 1, FVal.num 3, FVal.nan, FVal.nan, FVal.nan⟩] []
      ⟨"A", 0, 1, FVal.num 3, FVal.nan, FVal.nan, FVal.nan, FVal.nan, FVal.nan,
        false, FVal.num 0⟩ (by decide)).2.1 rfl⟩

/-- C6 (confirmed): in every output of the Latest-Snapshot Reducer the
`site_no` values are pairwise distinct, and every output row is one of the
enriched input rows — so no Snapshot exists for a site with zero enriched
readings. -/
theorem c6_snapshot_site_uniqueness (rows : List MergedRow) :
    (latestSnapshot rows).Pairwise (fun a b => a.site ≠ b.site) ∧
    (∀ r ∈ latestSnapshot rows, r ∈ rows) := by
  constructor
  · exact dropDupKeepLast_pairwise (fun r : MergedRow => r.site)
      (List.insertionSort tsRowLe rows)
  · intro r hr
    have h1 : r ∈ List.insertionSort tsRowLe rows :=
      (dropDupKeepLast_sublist (fun r : MergedRow => r.site) _).subset hr
    exact (List.perm_insertionSort tsRowLe rows).mem_iff.mp h1

/-- C6 (witness): on a concrete two-site table, the surviving row of site
`"A"` is an input row. -/
theorem c6_snapshot_site_uniqueness_witness :
    (⟨"A", 5, 1, FVal.num 7, FVal.nan, FVal.nan, FVal.nan, FVal.num 1,
        FVal.num 7, true, FVal.num 500⟩ : MergedRow) ∈
      latestSnapshot
        [⟨"A", 0, 1, FVal.num 3, FVal.nan, FVal.nan, FVal.nan, FVal.num 1,
          FVal.num 3, true, FVal.num 300⟩,
         ⟨"B", 2, 1, FVal.num 4, FVal.nan, FVal.nan, FVal.nan, FVal.nan,
          FVal.nan, false, FVal.num 0⟩,
         ⟨"A", 5, 1, FVal.num 7, FVal.nan, FVal.nan, FVal.nan, FVal.num 1,
          FVal.num 7, true, FVal.num 500⟩] ∧
    (⟨"A", 5, 1, FVal.num 7, FVal.nan, FVal.nan, FVal.nan, FVal.num 1,
        FVal.num 7, true, FVal.num 500⟩ : MergedRow) ∈
      [⟨"A", 0, 1, FVal.num 3, FVal.nan, FVal.nan, FVal.nan, FVal.num 1,
          FVal.num 3, true, FVal.num 300⟩,
       ⟨"B", 2, 1, FVal.num 4, FVal.nan, FVal.nan, FVal.nan, FVal.nan,
          FVal.nan, false, FVal.num 0⟩,
       ⟨"A", 5, 1, FVal.num 7, FVal.nan, FVal.nan, FVal.nan, FVal.num 1,
          FVal.num 7, true, FVal.num 500⟩] :=
  ⟨by decide,
    (c6_snapshot_site_uniqueness
        [⟨"A", 0, 1, FVal.num 3, FVal.nan, FVal.nan, FVal.nan, FVal.num 1,
          FVal.num 3, true, FVal.num 300⟩,
         ⟨"B", 2, 1, FVal.num 4, FVal.nan, FVal.nan, FVal.nan, FVal.nan,
          FVal.nan, false, FVal.num 0⟩,
         ⟨"A", 5, 1, FVal.num 7, FVal.nan, FVal.nan, FVal.nan, FVal.num 1,
          FVal.num 7, true, FVal.num 500⟩]).2
      ⟨"A", 5, 1, FVal.num 7, FVal.nan, FVal.nan, FVal.nan, FVal.num 1,
        FVal.num 7, true, FVal.num 500⟩ (by decide)⟩

/-- C7 (code bug): the claim — a row with an unparseable timestamp is
silently dropped and never raises a process-level failure — matches the
intent visible in `prepare_current_data` (which parses with
`errors="coerce"` precisely to coerce-and-drop such rows), but `main` runs
`compute_rate_of_change` first, whose `pd.to_datetime` call lacks
`errors="coerce"` and raises `ValueError` on the malformed cell before the
validation stage is ever reached.  First conjunct: the malformed-timestamp
row aborts the rate-of-change stage.  Second conjunct: rows with a missing
timestamp, a missing site id or a missing flow are indeed silently dropped
(the run completes and they produce no output row). -/
theorem c7_record_rejection :
    computeRateOfChange [⟨some "A", RawTs.malformed "not-a-date", FVal.num 1⟩]
        = Except.error () ∧
    mainProcess (some [⟨some "A", RawTs.missing, FVal.num 1⟩,
        ⟨none, RawTs.parsed 0, FVal.num 2⟩, ⟨some "B", RawTs.parsed 0, FVal.nan⟩])
        (some []) = some (Except.ok []) := by
  constructor
  · decide
  · decide

/-- C8 (counterexample): the claim states that when some but not all reading
sources are missing the run continues over the available data.  With the
north source present but containing zero data rows and the south source
missing, the loader reports only the south source, yet `main` aborts on the
empty concatenation and writes no output, although a reading source was
available. -/
theorem c8_counterexample :
    mainRoc (some []) none (some []) = ⟨["data/south_va.csv"], none⟩ := by decide

/-- C8 (amended): the loader reports every missing source on every run; when
the concatenated available data is non-empty (and the historical file is
present and every timestamp parses) the run continues and writes an output;
when zero reading sources are available the run aborts before the output
stage with both sources reported, and no output is written.  A run whose
present sources are all empty also aborts (see the counterexample). -/
theorem c8_missing_source_handling :
    (∀ (north south : Option (List RawReading)) (hist : Option (List HistRow)),
      (north = none → "data/north_va.csv" ∈ (mainRoc north south hist).warnings) ∧
      (south = none → "data/south_va.csv" ∈ (mainRoc north south hist).warnings)) ∧
    (∀ (north south : Option (List RawReading)) (h : List HistRow),
      (loadCurrentData north south).2 ≠ [] →
      (∀ r ∈ (loadCurrentData north south).2, r.ts.isMalformed = false) →
      ∃ out, (mainRoc north south (some h)).output = some out) ∧
    (∀ hist : Option (List HistRow),
      mainRoc none none hist = ⟨["data/north_va.csv", "data/south_va.csv"], none⟩) := by
  refine ⟨?_, ?_, ?_⟩
  · intro north south hist
    constructor
    · intro he
      subst he
      rw [mainRoc_warnings]
      cases south <;> simp [loadCurrentData]
    · intro he
      subst he
      rw [mainRoc_warnings]
      cases north <;> simp [loadCurrentData]
  · intro north south h hne hwf
    obtain ⟨l, hl⟩ := rocParseAll_ok_of_wellformed _ hwf
    have hroc : rocComputeRateOfChange (loadCurrentData north south).2 =
        Except.ok ((List.range (List.insertionSort rocReadingLe l).length).map fun i =>
          let r := (List.insertionSort rocReadingLe l).getD i ⟨none, none, FVal.nan, ""⟩
          ⟨r.site, r.ts, r.flow, r.region,
            transformCell RocParsed.site RocParsed.flow 12 (List.insertionSort rocReadingLe l) i r.site,
            transformCell RocParsed.site RocParsed.flow 36 (List.insertionSort rocReadingLe l) i r.site,
            transformCell RocParsed.site RocParsed.flow 72 (List.insertionSort rocReadingLe l) i r.site⟩) := by
      simp only [rocComputeRateOfChange, hl, ebind_ok, epure_ok]
    unfold mainRoc
    rw [if_neg hne, hroc]
    exact ⟨_, rfl⟩
  · intro hist
    cases hist <;> rfl

/-- C8 (witness): with a one-row north source, a missing south source and a
present (empty) historical table, the run reports the south source and still
writes an output. -/
theorem c8_missing_source_handling_witness :
    ((loadCurrentData (some [⟨some "A", RawTs.parsed 0, FVal.num 1⟩]) none).2 ≠ [] ∧
      "data/south_va.csv" ∈
        (mainRoc (some [⟨some "A", RawTs.parsed 0, FVal.num 1⟩]) none
          (some [])).warnings) ∧
    (∃ out, (mainRoc (some [⟨some "A", RawTs.parsed 0, FVal.num 1⟩]) none
        (some [])).output = some out) :=
  ⟨⟨by decide,
    (c8_missing_source_handling.1 (some [⟨some "A", RawTs.parsed 0, FVal.num 1⟩])
      none (some [])).2 rfl⟩,
    c8_missing_source_handling.2.1 (some [⟨some "A", RawTs.parsed 0, FVal.num 1⟩])
      none [] (by decide) (by decide)⟩

/-- C9 (confirmed): the modelled pipeline is a pure function of its two
input tables — the source reads no clock, random source or ambient state,
iterates only over tables and a fixed window dictionary, and writes its
output in one pass — so two runs over the same Reading and BaselineEntry
tables produce identical Snapshot tables (same rows, same values, same
order). -/
theorem c9_determinism (gauge : Option (List RawReading)) (hist : Option (List HistRow)) :
    mainProcess gauge hist = mainProcess gauge hist := rfl

/-- C10 (counterexample): the claim states that whenever both input files
exist `main` always writes the output table.  A gauge table containing one
row with a malformed timestamp string makes the strict `pd.to_datetime` in
`compute_rate_of_change` raise, so the run dies before the write and no
output is produced. -/
theorem c10_counterexample :
    mainProcess (some [⟨some "A", RawTs.malformed "2024-13-99 99:99", FVal.num 1⟩])
        (some []) = some (Except.error ()) := by decide

/-- C10 (amended): whenever both input files exist **and every timestamp
cell is either parseable or empty**, `main` writes the output table; in
particular when additionally every row fails validation (missing site id,
empty timestamp, or missing flow) the previous output is overwritten with an
empty table.  The original claim's "always" fails only on the
malformed-timestamp raise of the counterexample. -/
theorem c10_overwrites_with_empty_amended :
    (∀ (g : List RawReading) (h : List HistRow),
      (∀ r ∈ g, r.ts.isMalformed = false) →
      ∃ out, mainProcess (some g) (some h) = some (Except.ok out)) ∧
    (∀ (g : List RawReading) (h : List HistRow),
      (∀ r ∈ g, r.ts.isMalformed = false) →
      (∀ r ∈ g, r.site = none ∨ r.ts = RawTs.missing ∨ r.flow = FVal.nan) →
      mainProcess (some g) (some h) = some (Except.ok [])) := by
  constructor
  · intro g h hwf
    obtain ⟨l, hl⟩ := parseAll_ok_of_wellformed g hwf
    refine ⟨latestSnapshot (compareToHistorical
      (prepareCurrentData (enrichRoc (List.insertionSort readingLe l))) h), ?_⟩
    simp only [mainProcess, computeRateOfChange, hl, ebind_ok, epure_ok]
  · intro g h hwf hinv
    obtain ⟨l, hl⟩ := parseAll_ok_of_wellformed g hwf
    have hlinv := parseAll_invalid g l hl hinv
    have hsinv : ∀ x ∈ List.insertionSort readingLe l,
        x.site = none ∨ x.ts = none ∨ x.flow = FVal.nan := fun x hx =>
      hlinv x ((List.perm_insertionSort readingLe l).mem_iff.mp hx)
    have hprep : prepareCurrentData (enrichRoc (List.insertionSort readingLe l)) = [] := by
      apply prepare_nil_of_invalid
      intro x hx
      obtain ⟨p, hp, hs, ht, hf⟩ := mem_enrichRoc hx
      rcases hsinv p hp with h1 | h1 | h1
      · left
        rw [hs, h1]
      · right; left
        rw [ht, h1]
      · right; right
        rw [hf, h1]
    simp only [mainProcess, computeRateOfChange, hl, ebind_ok, epure_ok, hprep]
    rfl

/-- C10 (witness): with a one-row gauge table whose only row has a missing
flow (and a parseable timestamp), the run still writes — an empty output
table. -/
theorem c10_overwrites_with_empty_amended_witness :
    mainProcess (some [⟨some "A", RawTs.parsed 0, FVal.nan⟩]) (some [])
      = some (Except.ok []) :=
  c10_overwrites_with_empty_amended.2 [⟨some "A", RawTs.parsed 0, FVal.nan⟩] []
    (by decide) (by decide)

end

end Flood
